import Mathlib

/-!
Verification of the harmonic-signal visualizer (`src/lab5/lab5.py`).

Shallow embedding of the numeric core of `HarmonicVisualizer`:

* `linspace` models `np.linspace(start, stop, num)` (endpoint included);
* `calculateHarmonic` models `HarmonicVisualizer._calculate_harmonic`;
* `generateNoiseR` models `HarmonicVisualizer._generate_noise`
  (`np.random.normal(loc, scale, n)` is `loc + scale * z_i` element-wise,
  where `z_i` is the stream of standard-normal draws of the process-wide
  generator, abstracted as a function `draw : ℕ → ℝ` with a cursor);
* `generateNoiseE` is the same noise step including the failure behaviour of
  `np.sqrt` / `np.random.normal` on a negative variance (`Option ℝ` values,
  `none` standing for NaN);
* `convFull`, `convSame`, `applyFilter` model
  `np.convolve(signal, np.ones(w)/w, mode='same')` as in
  `HarmonicVisualizer._apply_filter`, and `smooth` additionally models the
  `ValueError`s numpy raises when the window is not positive;
* `VState`, `recompute`, `step`, `run` model the widget-driven controller:
  slider events (`_update`), the reset button (`_reset`) and the visibility
  checkboxes (`_update_visibility`).

Real numbers stand for the Python floats; sample sequences are `List ℝ`.
-/

open Real

noncomputable section

/-- Errors surfaced by the numeric layer.  `invalidParameter` models a numpy
`ValueError` (the spec's `InvalidParameter` kind). -/
inductive SignalError where
  | invalidParameter
  deriving DecidableEq, Repr

/-- Model of `np.linspace start stop num` with the endpoint included: `num` evenly
spaced values, the `i`-th being `start + i * (stop - start) / (num - 1)`.
(numpy assigns the endpoint directly; over `ℝ` that is the same value.) -/
def linspace (start stop : ℝ) (num : ℕ) : List ℝ :=
  (List.range num).map (fun (i : ℕ) => start + (i : ℝ) * ((stop - start) / ((num : ℝ) - 1)))

/-- Model of `_calculate_harmonic`:
`amplitude * np.sin(2 * np.pi * frequency * t + phase)`, element-wise over
the time base. -/
def calculateHarmonic (amplitude frequency phase : ℝ) (t : List ℝ) : List ℝ :=
  t.map (fun x => amplitude * Real.sin (2 * Real.pi * frequency * x + phase))

/-- Model of `_generate_noise` on the non-error path:
`np.random.normal(mean, np.sqrt(variance), n)` where the `i`-th draw of the
process-wide generator after position `pos` is `draw (pos + i)`, so the
sample is `mean + sqrt variance * draw (pos + i)`. -/
def generateNoiseR (draw : ℕ → ℝ) (mean variance : ℝ) (pos n : ℕ) : List ℝ :=
  (List.range n).map (fun i => mean + Real.sqrt variance * draw (pos + i))

/-- Model of `np.sqrt` on a scalar: NaN (here `none`) for a negative argument —
numpy emits a `RuntimeWarning`, not an exception. -/
def npSqrt (x : ℝ) : Option ℝ :=
  if x < 0 then none else some (Real.sqrt x)

/-- Model of `np.random.normal(loc, scale, n)`: raises `ValueError` when the scale is
a negative real; a NaN scale passes the `scale < 0` check (NaN comparisons
are false) and yields NaN samples. -/
def npRandomNormal (draw : ℕ → ℝ) (loc : ℝ) (scale : Option ℝ) (pos n : ℕ) :
    Except SignalError (List (Option ℝ)) :=
  match scale with
  | none => .ok (List.replicate n none)
  | some s =>
      if s < 0 then .error .invalidParameter
      else .ok ((List.range n).map (fun i => some (loc + s * draw (pos + i))))

/-- Model of `_generate_noise` with the failure behaviour of the numpy calls made
explicit: `np.random.normal(mean, np.sqrt(variance), n)`. -/
def generateNoiseE (draw : ℕ → ℝ) (mean variance : ℝ) (pos n : ℕ) :
    Except SignalError (List (Option ℝ)) :=
  npRandomNormal draw mean (npSqrt variance) pos n

/-- Model of `np.ones(w) / w`: the uniform kernel of `w` taps, each `1 / w`. -/
def uniformKernel (w : ℕ) : List ℝ :=
  List.replicate w (1 / (w : ℝ))

/-- Zero-padded access: `a[i]` when `0 ≤ i < a.length`, else `0`. -/
def getZ (a : List ℝ) (i : ℤ) : ℝ :=
  if 0 ≤ i then a.getD i.toNat 0 else 0

/-- Model of `np.convolve a v` (mode `'full'`): length `a.length + v.length - 1`, with
`out[n] = Σ_{m} a[m] * v[n - m]`, indices outside `v` contributing `0`. -/
def convFull (a v : List ℝ) : List ℝ :=
  (List.range (a.length + v.length - 1)).map
    (fun (n : ℕ) => ∑ m in Finset.range a.length, a.getD m 0 * getZ v ((n : ℤ) - (m : ℤ)))

/-- Model of `np.convolve a v` (mode `'same'`): the centered slice of the full
convolution, of length `max a.length v.length`, starting at
`(min a.length v.length - 1) / 2`. -/
def convSame (a v : List ℝ) : List ℝ :=
  ((convFull a v).drop ((min a.length v.length - 1) / 2)).take (max a.length v.length)

/-- Model of `_apply_filter` on the non-error path:
`np.convolve(noisy, np.ones(window)/window, mode='same')`. -/
def applyFilter (noisy : List ℝ) (window : ℤ) : List ℝ :=
  convSame noisy (uniformKernel window.toNat)

/-- The moving-average smoothing step with numpy's failure behaviour:
`np.ones(window)` raises `ValueError` for a negative window, and
`np.convolve` raises `ValueError` for the empty kernel produced by
`window = 0`; both are `invalidParameter` here. -/
def smooth (signal : List ℝ) (window : ℤ) : Except SignalError (List ℝ) :=
  if window ≤ 0 then .error .invalidParameter
  else .ok (applyFilter signal window)

/-- matplotlib `Slider` keeps its value inside `[lo, hi]`. -/
def clamp (lo hi x : ℝ) : ℝ :=
  max lo (min hi x)

/-- The state of `HarmonicVisualizer`: the six parameters, the time base,
the three sample sequences plus the raw noise, the cursor of the
process-wide random generator, and the two visibility flags held by the
display collaborator. -/
structure VState where
  amplitude : ℝ
  frequency : ℝ
  phase : ℝ
  noise_mean : ℝ
  noise_covariance : ℝ
  filter_window : ℤ
  t : List ℝ
  pure_signal : List ℝ
  noise : List ℝ
  noisy_signal : List ℝ
  filtered_signal : List ℝ
  rngPos : ℕ
  noisyVisible : Bool
  filteredVisible : Bool

/-- The recomputation sequence shared by `__init__` and `_update`:
`pure_signal = _calculate_harmonic(); noise = _generate_noise();`
`noisy_signal = pure_signal + noise; filtered_signal = _apply_filter()`,
advancing the generator cursor by the number of draws. -/
def recompute (draw : ℕ → ℝ) (s : VState) : VState :=
  let p := calculateHarmonic s.amplitude s.frequency s.phase s.t
  let z := generateNoiseR draw s.noise_mean s.noise_covariance s.rngPos s.t.length
  let y := List.zipWith (· + ·) p z
  { s with
    pure_signal := p
    noise := z
    noisy_signal := y
    filtered_signal := applyFilter y s.filter_window
    rngPos := s.rngPos + s.t.length }

/-- Events delivered by the UI shell: a slider change (carrying the four
slider values, each clamped to its slider range), the reset button, and the
two visibility checkboxes. -/
inductive Event where
  | update (a f m v : ℝ)
  | reset
  | toggleNoisy
  | toggleFiltered

/-- One controller step.  `_update` copies the four slider values into the
parameters and recomputes; `_reset` restores the sliders to their initial
values (the startup defaults) and recomputes; `_update_visibility` flips
one visibility flag and touches nothing else. -/
def step (draw : ℕ → ℝ) (s : VState) : Event → VState
  | .update a f m v =>
      recompute draw
        { s with
          amplitude := clamp 0.1 5.0 a
          frequency := clamp 0.1 3.0 f
          noise_mean := clamp (-1.0) 1.0 m
          noise_covariance := clamp 0.0 1.0 v }
  | .reset =>
      recompute draw
        { s with
          amplitude := 1.0
          frequency := 1.0
          noise_mean := 0.0
          noise_covariance := 0.2 }
  | .toggleNoisy => { s with noisyVisible := !s.noisyVisible }
  | .toggleFiltered => { s with filteredVisible := !s.filteredVisible }

/-- Model of `__init__`: default parameters, `t = np.linspace(0, 10, 1000)`, then the
initial recomputation. -/
def initState (draw : ℕ → ℝ) : VState :=
  recompute draw
    { amplitude := 1.0
      frequency := 1.0
      phase := 0.0
      noise_mean := 0.0
      noise_covariance := 0.2
      filter_window := 10
      t := linspace 0 10 1000
      pure_signal := []
      noise := []
      noisy_signal := []
      filtered_signal := []
      rngPos := 0
      noisyVisible := true
      filteredVisible := true }

/-- The controller run on a list of UI events. -/
def run (draw : ℕ → ℝ) (es : List Event) : VState :=
  es.foldl (step draw) (initState draw)

/-! ## Basic facts about the numeric layer -/

theorem linspace_length (start stop : ℝ) (num : ℕ) :
    (linspace start stop num).length = num := by
  simp [linspace]

theorem linspace_getD (start stop : ℝ) (num i : ℕ) (h : i < num) :
    (linspace start stop num).getD i 0 =
      start + i * ((stop - start) / ((num : ℝ) - 1)) := by
  simp [linspace, List.getD_eq_getElem?_getD, List.getElem?_map, List.getElem?_range, h]

theorem calculateHarmonic_length (amplitude frequency phase : ℝ) (t : List ℝ) :
    (calculateHarmonic amplitude frequency phase t).length = t.length := by
  simp [calculateHarmonic]

theorem calculateHarmonic_getD (amplitude frequency phase : ℝ) (t : List ℝ)
    (i : ℕ) (h : i < t.length) :
    (calculateHarmonic amplitude frequency phase t).getD i 0 =
      amplitude * Real.sin (2 * Real.pi * frequency * t.getD i 0 + phase) := by
  rcases List.getElem?_eq_some_iff.mpr ⟨h, rfl⟩ with he
  simp [calculateHarmonic, List.getD_eq_getElem?_getD, List.getElem?_map, he]

theorem generateNoiseR_length (draw : ℕ → ℝ) (mean variance : ℝ) (pos n : ℕ) :
    (generateNoiseR draw mean variance pos n).length = n := by
  simp [generateNoiseR]

theorem generateNoiseR_getD (draw : ℕ → ℝ) (mean variance : ℝ) (pos n i : ℕ)
    (h : i < n) :
    (generateNoiseR draw mean variance pos n).getD i 0 =
      mean + Real.sqrt variance * draw (pos + i) := by
  simp [generateNoiseR, List.getD_eq_getElem?_getD, List.getElem?_map, List.getElem?_range, h]

theorem uniformKernel_length (w : ℕ) : (uniformKernel w).length = w := by
  simp [uniformKernel]

theorem getZ_uniformKernel (w : ℕ) (k : ℤ) :
    getZ (uniformKernel w) k = if 0 ≤ k ∧ k < (w : ℤ) then ((w : ℝ))⁻¹ else 0 := by
  by_cases h0 : 0 ≤ k
  · by_cases hw : k < (w : ℤ)
    · have hk : k.toNat < w := by omega
      rw [getZ, if_pos h0, uniformKernel, List.getD_eq_getElem?_getD,
        List.getElem?_replicate, if_pos hk]
      simp [one_div]
      simp [h0, hw]
    · have hk : ¬ k.toNat < w := by omega
      rw [getZ, if_pos h0, uniformKernel, List.getD_eq_getElem?_getD,
        List.getElem?_replicate, if_neg hk]
      simp [h0, hw]
  · rw [getZ, if_neg h0, if_neg (by omega)]

theorem getZ_eq_getD (a : List ℝ) (i : ℕ) : getZ a i = a.getD i 0 := by
  simp [getZ]

theorem getZ_of_neg (a : List ℝ) (i : ℤ) (h : i < 0) : getZ a i = 0 := by
  simp [getZ, not_le.mpr h]

theorem convFull_length (a v : List ℝ) :
    (convFull a v).length = a.length + v.length - 1 := by
  simp [convFull]

theorem convFull_getD (a v : List ℝ) (n : ℕ) (h : n < a.length + v.length - 1) :
    (convFull a v).getD n 0 =
      ∑ m in Finset.range a.length, a.getD m 0 * getZ v ((n : ℤ) - (m : ℤ)) := by
  simp [convFull, List.getD_eq_getElem?_getD, List.getElem?_map, List.getElem?_range, h]

theorem convSame_length (a v : List ℝ) (ha : a ≠ []) (hv : v ≠ []) :
    (convSame a v).length = max a.length v.length := by
  have ha' : 1 ≤ a.length := List.length_pos.mpr ha
  have hv' : 1 ≤ v.length := List.length_pos.mpr hv
  simp only [convSame, List.length_take, List.length_drop, convFull_length]
  omega

theorem convSame_getD (a v : List ℝ) (i : ℕ) (_hv : 1 ≤ v.length)
    (hva : v.length ≤ a.length) (hi : i < a.length) :
    (convSame a v).getD i 0 =
      (convFull a v).getD ((v.length - 1) / 2 + i) 0 := by
  have hmax : max a.length v.length = a.length := by omega
  have hmin : min a.length v.length = v.length := by omega
  rw [convSame, hmax, hmin]
  rw [List.getD_eq_getElem?_getD, List.getElem?_take, if_pos hi,
    List.getElem?_drop, ← List.getD_eq_getElem?_getD]

theorem applyFilter_length (noisy : List ℝ) (window : ℤ)
    (h1 : 1 ≤ window) (h2 : window.toNat ≤ noisy.length) :
    (applyFilter noisy window).length = noisy.length := by
  have hn : noisy ≠ [] := by
    intro he
    rw [he] at h2
    simp at h2
    omega
  have hker : uniformKernel window.toNat ≠ [] := by
    have : (uniformKernel window.toNat).length = window.toNat := uniformKernel_length _
    intro he
    rw [he] at this
    simp at this
    omega
  rw [applyFilter, convSame_length _ _ hn hker, uniformKernel_length]
  omega

/-! ## Controller invariants -/

/-- Fields `recompute` leaves alone. -/
theorem recompute_params (draw : ℕ → ℝ) (s : VState) :
    (recompute draw s).amplitude = s.amplitude ∧
    (recompute draw s).frequency = s.frequency ∧
    (recompute draw s).phase = s.phase ∧
    (recompute draw s).noise_mean = s.noise_mean ∧
    (recompute draw s).noise_covariance = s.noise_covariance ∧
    (recompute draw s).filter_window = s.filter_window ∧
    (recompute draw s).t = s.t := by
  simp [recompute]

/-- The fields `recompute` sets. -/
theorem recompute_signals (draw : ℕ → ℝ) (s : VState) :
    (recompute draw s).pure_signal =
        calculateHarmonic s.amplitude s.frequency s.phase s.t ∧
    (recompute draw s).noise =
        generateNoiseR draw s.noise_mean s.noise_covariance s.rngPos s.t.length ∧
    (recompute draw s).noisy_signal =
        List.zipWith (· + ·) (recompute draw s).pure_signal (recompute draw s).noise ∧
    (recompute draw s).filtered_signal =
        applyFilter (recompute draw s).noisy_signal s.filter_window := by
  refine ⟨rfl, rfl, rfl, rfl⟩

/-- Reachability invariant: the phase, the filter window and the time base
are never written after `__init__` (no slider exists for them), and the
three signals stay length-consistent with the 1000-point time base. -/
def ReachInv (s : VState) : Prop :=
  s.phase = 0 ∧ s.filter_window = 10 ∧ s.t = linspace 0 10 1000 ∧
    s.pure_signal.length = 1000 ∧ s.noise.length = 1000 ∧
    s.noisy_signal.length = 1000 ∧ s.filtered_signal.length = 1000

theorem recompute_reachInv (draw : ℕ → ℝ) (s : VState)
    (hphase : s.phase = 0) (hwin : s.filter_window = 10)
    (ht : s.t = linspace 0 10 1000) : ReachInv (recompute draw s) := by
  have htlen : s.t.length = 1000 := by rw [ht, linspace_length]
  have hp : (recompute draw s).pure_signal.length = 1000 := by
    rw [(recompute_signals draw s).1, calculateHarmonic_length, htlen]
  have hz : (recompute draw s).noise.length = 1000 := by
    rw [(recompute_signals draw s).2.1, generateNoiseR_length, htlen]
  have hy : (recompute draw s).noisy_signal.length = 1000 := by
    rw [(recompute_signals draw s).2.2.1, List.length_zipWith, hp, hz]; omega
  refine ⟨?_, ?_, ?_, hp, hz, hy, ?_⟩
  · rw [(recompute_params draw s).2.2.1, hphase]
  · rw [(recompute_params draw s).2.2.2.2.2.1, hwin]
  · rw [(recompute_params draw s).2.2.2.2.2.2, ht]
  · rw [(recompute_signals draw s).2.2.2, hwin]
    rw [applyFilter_length _ 10 (by norm_num) (by rw [hy]; norm_num), hy]

theorem initState_reachInv (draw : ℕ → ℝ) : ReachInv (initState draw) := by
  rw [initState]
  exact recompute_reachInv draw _ (by norm_num) (by simp) (by simp)

theorem step_reachInv (draw : ℕ → ℝ) (s : VState) (e : Event) (h : ReachInv s) :
    ReachInv (step draw s e) := by
  obtain ⟨h1, h2, h3, h4, h5, h6, h7⟩ := h
  cases e with
  | update a f m v => exact recompute_reachInv draw _ h1 h2 h3
  | reset => exact recompute_reachInv draw _ h1 h2 h3
  | toggleNoisy => exact ⟨h1, h2, h3, h4, h5, h6, h7⟩
  | toggleFiltered => exact ⟨h1, h2, h3, h4, h5, h6, h7⟩

theorem foldl_reachInv (draw : ℕ → ℝ) (es : List Event) (s : VState) (h : ReachInv s) :
    ReachInv (es.foldl (step draw) s) := by
  induction es generalizing s with
  | nil => exact h
  | cons e es ih => exact ih _ (step_reachInv draw s e h)

theorem run_reachInv (draw : ℕ → ℝ) (es : List Event) : ReachInv (run draw es) :=
  foldl_reachInv draw es _ (initState_reachInv draw)

/-! ## Elementwise facts about a recompute -/

theorem zipWith_add_getD (l1 l2 : List ℝ) (i : ℕ) (h1 : i < l1.length)
    (h2 : i < l2.length) :
    (List.zipWith (· + ·) l1 l2).getD i 0 = l1.getD i 0 + l2.getD i 0 := by
  rw [List.getD_eq_getElem l1 0 h1, List.getD_eq_getElem l2 0 h2,
    List.getD_eq_getElem _ 0 (by rw [List.length_zipWith]; omega)]
  exact List.getElem_zipWith ..

theorem recompute_pure_getD (draw : ℕ → ℝ) (s : VState) (i : ℕ)
    (h : i < s.t.length) :
    (recompute draw s).pure_signal.getD i 0 =
      s.amplitude * Real.sin (2 * Real.pi * s.frequency * s.t.getD i 0 + s.phase) := by
  rw [(recompute_signals draw s).1]
  exact calculateHarmonic_getD _ _ _ _ _ h

theorem recompute_noise_getD (draw : ℕ → ℝ) (s : VState) (i : ℕ)
    (h : i < s.t.length) :
    (recompute draw s).noise.getD i 0 =
      s.noise_mean + Real.sqrt s.noise_covariance * draw (s.rngPos + i) := by
  rw [(recompute_signals draw s).2.1]
  exact generateNoiseR_getD _ _ _ _ _ _ h

theorem recompute_noisy_getD (draw : ℕ → ℝ) (s : VState) (i : ℕ)
    (h : i < s.t.length) :
    (recompute draw s).noisy_signal.getD i 0 =
      (recompute draw s).pure_signal.getD i 0 + (recompute draw s).noise.getD i 0 := by
  rw [(recompute_signals draw s).2.2.1]
  apply zipWith_add_getD
  · rw [(recompute_signals draw s).1, calculateHarmonic_length]; exact h
  · rw [(recompute_signals draw s).2.1, generateNoiseR_length]; exact h

/-- For a nonnegative variance the noise step raises nothing and the NaN-aware
model agrees with the plain real-valued one. -/
theorem generateNoiseE_of_nonneg (draw : ℕ → ℝ) (mean variance : ℝ) (pos n : ℕ)
    (h : 0 ≤ variance) :
    generateNoiseE draw mean variance pos n =
      .ok ((generateNoiseR draw mean variance pos n).map some) := by
  rw [generateNoiseE, npSqrt, if_neg (not_lt.mpr h), npRandomNormal,
    if_neg (not_lt.mpr (Real.sqrt_nonneg _)), generateNoiseR, List.map_map]
  rfl

/-- For a positive window the smoothing step raises nothing and returns the
`mode='same'` convolution. -/
theorem smooth_of_pos (signal : List ℝ) (window : ℤ) (h : 1 ≤ window) :
    smooth signal window = .ok (applyFilter signal window) := by
  rw [smooth, if_neg (by omega)]

/-! ## Claim theorems -/

/-- C3: the time base `np.linspace(0, 10, 1000)` has exactly 1000 elements,
first value `0.0`, last value `10.0`, uniform spacing `10/999`, and is
strictly increasing. -/
theorem timeBase_spec :
    (linspace 0 10 1000).length = 1000 ∧
    (linspace 0 10 1000).getD 0 0 = 0 ∧
    (linspace 0 10 1000).getD 999 0 = 10 ∧
    (∀ i : ℕ, i + 1 < 1000 →
      (linspace 0 10 1000).getD (i + 1) 0 - (linspace 0 10 1000).getD i 0 = 10 / 999) ∧
    (∀ i j : ℕ, i < j → j < 1000 →
      (linspace 0 10 1000).getD i 0 < (linspace 0 10 1000).getD j 0) := by
  have hval : ∀ i : ℕ, i < 1000 →
      (linspace 0 10 1000).getD i 0 = (i : ℝ) * (10 / 999) := by
    intro i hi
    rw [linspace_getD 0 10 1000 i hi]
    norm_num
  refine ⟨linspace_length 0 10 1000, ?_, ?_, ?_, ?_⟩
  · rw [hval 0 (by norm_num)]; norm_num
  · rw [hval 999 (by norm_num)]; norm_num
  · intro i hi
    rw [hval (i + 1) hi, hval i (by omega)]
    push_cast
    ring
  · intro i j hij hj
    rw [hval i (by omega), hval j hj]
    have : (i : ℝ) < (j : ℝ) := by exact_mod_cast hij
    nlinarith

/-- Closed instance of `timeBase_spec`: spacing between samples 41 and 42,
and strict increase from sample 3 to sample 5. -/
theorem timeBase_spec_witness :
    (linspace 0 10 1000).getD 42 0 - (linspace 0 10 1000).getD 41 0 = 10 / 999 ∧
    (linspace 0 10 1000).getD 3 0 < (linspace 0 10 1000).getD 5 0 :=
  ⟨timeBase_spec.2.2.2.1 41 (by decide), timeBase_spec.2.2.2.2 3 5 (by decide) (by decide)⟩

theorem convFull_uniformKernel_one (a : List ℝ) : convFull a (uniformKernel 1) = a := by
  apply List.ext_getElem
  · rw [convFull_length, uniformKernel_length]; omega
  · intro n h1 h2
    have hlen : (convFull a (uniformKernel 1)).length = a.length := by
      rw [convFull_length, uniformKernel_length]; omega
    have hn : n < a.length + (uniformKernel 1).length - 1 := by
      rw [uniformKernel_length]; omega
    rw [← List.getD_eq_getElem _ 0 h1, ← List.getD_eq_getElem _ 0 h2,
      convFull_getD a _ n hn]
    have hone : ∀ m : ℕ, m ≠ n →
        a.getD m 0 * getZ (uniformKernel 1) ((n : ℤ) - (m : ℤ)) = 0 := by
      intro m hm
      rw [getZ_uniformKernel]
      rw [if_neg (by omega)]
      ring
    rw [Finset.sum_eq_single n (fun b _ hb => hone b hb)
      (fun hn' => absurd (Finset.mem_range.mpr h2) hn')]
    rw [getZ_uniformKernel, if_pos (by omega)]
    norm_num

/-- C4: the moving-average filter with `window = 1` is the identity: the
kernel is the single tap `[1.0]` and `np.convolve(signal, [1.0], 'same')`
returns the signal. -/
theorem smooth_window_one_id (signal : List ℝ) : smooth signal 1 = .ok signal := by
  rw [smooth_of_pos signal 1 le_rfl]
  rcases eq_or_ne signal [] with h | h
  · subst h
    rfl
  · have hlen : 1 ≤ signal.length := List.length_pos.mpr h
    have hfull := convFull_uniformKernel_one signal
    have hfl : (convFull signal (uniformKernel 1)).length = signal.length := by
      rw [hfull]
    rw [applyFilter]
    show Except.ok (convSame signal (uniformKernel 1)) = _
    rw [convSame, uniformKernel_length, min_eq_right hlen, max_eq_left hlen]
    simp [hfull]

/-- Closed instance of `smooth_window_one_id` at `[1, 2, 3]`. -/
theorem smooth_window_one_id_witness :
    smooth [1, 2, 3] 1 = .ok [1, 2, 3] :=
  smooth_window_one_id [1, 2, 3]

/-- C5: a window below 1 makes the filter fail: `np.ones` rejects a negative
size and `np.convolve` rejects the empty kernel from `window = 0`, both with
`ValueError` — the spec's `InvalidParameter`. -/
theorem smooth_window_lt_one_error (signal : List ℝ) (window : ℤ)
    (h : window < 1) :
    smooth signal window = .error .invalidParameter := by
  rw [smooth, if_pos (by omega)]

/-- Closed instance of `smooth_window_lt_one_error` at `window = 0`. -/
theorem smooth_window_lt_one_error_witness :
    smooth [1, 2, 3] 0 = .error .invalidParameter :=
  smooth_window_lt_one_error [1, 2, 3] 0 (by decide)

/-- C6 counterexample: a negative variance does *not* make the noise step
fail.  `np.sqrt(-1)` is NaN (a `RuntimeWarning`, not an exception) and
`np.random.normal` accepts a NaN scale because `nan < 0` is false, so the
call returns NaN samples instead of raising. -/
theorem noise_negative_variance_no_error :
    generateNoiseE (fun _ => 0) 0 (-1) 0 5 = .ok (List.replicate 5 none) ∧
    generateNoiseE (fun _ => 0) 0 (-1) 0 5 ≠ .error .invalidParameter := by
  constructor
  · rw [generateNoiseE, npSqrt, if_pos (by norm_num)]
    rfl
  · rw [generateNoiseE, npSqrt, if_pos (by norm_num)]
    intro hcontra
    exact Except.noConfusion hcontra

/-- C6 amended: with variance < 0 the noise source does not raise; it
returns a NaN-valued sample sequence of the requested length. -/
theorem noise_negative_variance_nan (draw : ℕ → ℝ) (mean variance : ℝ)
    (pos n : ℕ) (h : variance < 0) :
    generateNoiseE draw mean variance pos n = .ok (List.replicate n none) := by
  rw [generateNoiseE, npSqrt, if_pos h]
  rfl

/-- Closed instance of `noise_negative_variance_nan`. -/
theorem noise_negative_variance_nan_witness :
    generateNoiseE (fun _ => 1) 2 (-3) 4 6 = .ok (List.replicate 6 none) :=
  noise_negative_variance_nan (fun _ => 1) 2 (-3) 4 6 (by norm_num)

/-- A small concrete state (time base `[0]`, zero mean and variance) used by
closed witness instances. -/
def wState : VState :=
  { amplitude := 1
    frequency := 1
    phase := 0
    noise_mean := 0
    noise_covariance := 0
    filter_window := 10
    t := [0]
    pure_signal := []
    noise := []
    noisy_signal := []
    filtered_signal := []
    rngPos := 0
    noisyVisible := true
    filteredVisible := true }

/-- C1: one recompute sets `pure[i] = amplitude * sin(2π·frequency·t[i] + phase)`
at every index, draws fresh noise at the current generator position,
sets `noisy = pure + noise` element-wise, and applies the moving-average
filter to the noisy signal (not the pure one). -/
theorem recomputePipeline_spec (draw : ℕ → ℝ) (s : VState) :
    (∀ i : ℕ, i < s.t.length →
      (recompute draw s).pure_signal.getD i 0 =
        s.amplitude * Real.sin (2 * Real.pi * s.frequency * s.t.getD i 0 + s.phase)) ∧
    (recompute draw s).noise =
      generateNoiseR draw s.noise_mean s.noise_covariance s.rngPos s.t.length ∧
    (recompute draw s).noisy_signal =
      List.zipWith (· + ·) (recompute draw s).pure_signal (recompute draw s).noise ∧
    (∀ i : ℕ, i < s.t.length →
      (recompute draw s).noisy_signal.getD i 0 =
        (recompute draw s).pure_signal.getD i 0 + (recompute draw s).noise.getD i 0) ∧
    (recompute draw s).filtered_signal =
      applyFilter (recompute draw s).noisy_signal s.filter_window := by
  refine ⟨?_, (recompute_signals draw s).2.1, (recompute_signals draw s).2.2.1, ?_,
    (recompute_signals draw s).2.2.2⟩
  · intro i hi
    exact recompute_pure_getD draw s i hi
  · intro i hi
    exact recompute_noisy_getD draw s i hi

/-- Closed instance of `recomputePipeline_spec` on `wState` at index 0. -/
theorem recomputePipeline_spec_witness :
    (recompute (fun _ => 0) wState).pure_signal.getD 0 0 =
      wState.amplitude *
        Real.sin (2 * Real.pi * wState.frequency * wState.t.getD 0 0 + wState.phase) ∧
    (recompute (fun _ => 0) wState).noisy_signal.getD 0 0 =
      (recompute (fun _ => 0) wState).pure_signal.getD 0 0 +
        (recompute (fun _ => 0) wState).noise.getD 0 0 ∧
    (recompute (fun _ => 0) wState).filtered_signal =
      applyFilter (recompute (fun _ => 0) wState).noisy_signal wState.filter_window :=
  ⟨(recomputePipeline_spec (fun _ => 0) wState).1 0 (by decide),
   (recomputePipeline_spec (fun _ => 0) wState).2.2.2.1 0 (by decide),
   (recomputePipeline_spec (fun _ => 0) wState).2.2.2.2⟩

/-- C2: after any sequence of UI events the three sample sequences have the
same length as the time base, namely 1000. -/
theorem run_lengths (draw : ℕ → ℝ) (es : List Event) :
    (run draw es).pure_signal.length = (run draw es).t.length ∧
    (run draw es).noisy_signal.length = (run draw es).t.length ∧
    (run draw es).filtered_signal.length = (run draw es).t.length ∧
    (run draw es).t.length = 1000 := by
  obtain ⟨-, -, ht, h4, -, h6, h7⟩ := run_reachInv draw es
  have hlen : (run draw es).t.length = 1000 := by rw [ht, linspace_length]
  exact ⟨by rw [h4, hlen], by rw [h6, hlen], by rw [h7, hlen], hlen⟩

/-- Closed instance of `run_lengths` on the empty event sequence. -/
theorem run_lengths_witness :
    (run (fun _ => 0) []).pure_signal.length = (run (fun _ => 0) []).t.length ∧
    (run (fun _ => 0) []).noisy_signal.length = (run (fun _ => 0) []).t.length ∧
    (run (fun _ => 0) []).filtered_signal.length = (run (fun _ => 0) []).t.length ∧
    (run (fun _ => 0) []).t.length = 1000 :=
  run_lengths (fun _ => 0) []

theorem zipWith_add_replicate_zero (l : List ℝ) (n : ℕ) (h : l.length ≤ n) :
    List.zipWith (· + ·) l (List.replicate n 0) = l := by
  induction l generalizing n with
  | nil => simp
  | cons x xs ih =>
    cases n with
    | zero => simp at h
    | succ n =>
      rw [List.replicate_succ, List.zipWith_cons_cons, add_zero,
        ih n (by simpa using h)]

/-- C7 counterexample: from the initial state, a slider event setting
`noise_mean = 1` and `noise_variance = 0` (with a deterministic noise
source drawing 0) leaves the noisy signal different from the pure signal:
at index 0 the pure value is `sin 0 = 0` while the noisy value is `0 + 1`.
The first conjunct shows the claim's hypothesis (variance 0) holds there. -/
theorem noisy_eq_pure_counterexample :
    (step (fun _ => 0) (initState (fun _ => 0)) (.update 1 1 1 0)).noise_covariance = 0 ∧
    (step (fun _ => 0) (initState (fun _ => 0)) (.update 1 1 1 0)).noisy_signal.getD 0 0 ≠
      (step (fun _ => 0) (initState (fun _ => 0)) (.update 1 1 1 0)).pure_signal.getD 0 0 := by
  obtain ⟨hph, -, ht, -, -, -, -⟩ := initState_reachInv (fun _ => 0)
  generalize hgen : initState (fun _ => 0) = s0 at hph ht ⊢
  have hstep : step (fun _ => 0) s0 (.update 1 1 1 0) =
      recompute (fun _ => 0)
        { s0 with
          amplitude := clamp 0.1 5.0 1
          frequency := clamp 0.1 3.0 1
          noise_mean := clamp (-1.0) 1.0 1
          noise_covariance := clamp 0.0 1.0 0 } := rfl
  set s' : VState :=
    { s0 with
      amplitude := clamp 0.1 5.0 1
      frequency := clamp 0.1 3.0 1
      noise_mean := clamp (-1.0) 1.0 1
      noise_covariance := clamp 0.0 1.0 0 } with hs'
  have hs'mean : s'.noise_mean = 1 := by
    show clamp (-1.0) 1.0 1 = 1
    rw [clamp]
    norm_num
  have hs'var : s'.noise_covariance = 0 := by
    show clamp 0.0 1.0 0 = 0
    rw [clamp]
    norm_num
  have hs'phase : s'.phase = 0 := hph
  have hs't : s'.t = linspace 0 10 1000 := ht
  have htlen : 0 < s'.t.length := by rw [hs't, linspace_length]; norm_num
  have ht0 : s'.t.getD 0 0 = 0 := by
    rw [hs't, linspace_getD 0 10 1000 0 (by norm_num)]
    norm_num
  have hpure : (recompute (fun _ => 0) s').pure_signal.getD 0 0 = 0 := by
    rw [recompute_pure_getD _ _ 0 htlen, ht0, hs'phase]
    simp
  have hnoise : (recompute (fun _ => 0) s').noise.getD 0 0 = 1 := by
    rw [recompute_noise_getD _ _ 0 htlen, hs'mean, hs'var]
    simp
  have hnoisy : (recompute (fun _ => 0) s').noisy_signal.getD 0 0 = 1 := by
    rw [recompute_noisy_getD _ _ 0 htlen, hpure, hnoise]
    norm_num
  constructor
  · rw [hstep, (recompute_params _ _).2.2.2.2.1]
    exact hs'var
  · rw [hstep, hnoisy, hpure]
    norm_num

/-- C7 amended: with `noise_variance = 0` *and* `noise_mean = 0` the drawn
noise is identically zero, so after a recompute the noisy signal equals the
pure signal exactly, for every setting of the remaining parameters and any
noise stream. -/
theorem noisy_eq_pure_of_zero_noise (draw : ℕ → ℝ) (s : VState)
    (hm : s.noise_mean = 0) (hv : s.noise_covariance = 0) :
    (recompute draw s).noisy_signal = (recompute draw s).pure_signal := by
  have hz : generateNoiseR draw s.noise_mean s.noise_covariance s.rngPos s.t.length =
      List.replicate s.t.length 0 := by
    rw [hm, hv, generateNoiseR]
    simp
  rw [(recompute_signals draw s).2.2.1, (recompute_signals draw s).2.1, hz,
    zipWith_add_replicate_zero _ _ (by rw [(recompute_signals draw s).1,
      calculateHarmonic_length])]

/-- Closed instance of `noisy_eq_pure_of_zero_noise` on `wState`. -/
theorem noisy_eq_pure_of_zero_noise_witness :
    (recompute (fun _ => 0) wState).noisy_signal =
      (recompute (fun _ => 0) wState).pure_signal :=
  noisy_eq_pure_of_zero_noise (fun _ => 0) wState rfl rfl

/-- C8: a reset event restores all six parameters to the startup defaults,
whatever the parameters were before: the four slider-backed ones are set
back to their initial slider values, and phase and filter window are never
written by any event. -/
theorem reset_restores_defaults (draw : ℕ → ℝ) (es : List Event) :
    (step draw (run draw es) .reset).amplitude = 1 ∧
    (step draw (run draw es) .reset).frequency = 1 ∧
    (step draw (run draw es) .reset).phase = 0 ∧
    (step draw (run draw es) .reset).noise_mean = 0 ∧
    (step draw (run draw es) .reset).noise_covariance = 0.2 ∧
    (step draw (run draw es) .reset).filter_window = 10 := by
  obtain ⟨hph, hwin, -, -, -, -, -⟩ := run_reachInv draw es
  refine ⟨?_, ?_, ?_, ?_, ?_, ?_⟩
  · show (1.0 : ℝ) = 1
    norm_num
  · show (1.0 : ℝ) = 1
    norm_num
  · exact hph
  · show (0.0 : ℝ) = 0
    norm_num
  · rfl
  · exact hwin

/-- Closed instance of `reset_restores_defaults` on the empty event
sequence. -/
theorem reset_restores_defaults_witness :
    (step (fun _ => 0) (run (fun _ => 0) []) .reset).amplitude = 1 ∧
    (step (fun _ => 0) (run (fun _ => 0) []) .reset).frequency = 1 ∧
    (step (fun _ => 0) (run (fun _ => 0) []) .reset).phase = 0 ∧
    (step (fun _ => 0) (run (fun _ => 0) []) .reset).noise_mean = 0 ∧
    (step (fun _ => 0) (run (fun _ => 0) []) .reset).noise_covariance = 0.2 ∧
    (step (fun _ => 0) (run (fun _ => 0) []) .reset).filter_window = 10 :=
  reset_restores_defaults (fun _ => 0) []

/-- C9: a visibility-toggle event leaves every parameter, the time base, the
three sample sequences, the raw noise and the generator cursor unchanged;
only the toggled visibility flag flips (the other flag is untouched). -/
theorem visibility_toggle_frame (draw : ℕ → ℝ) (s : VState) (e : Event)
    (h : e = .toggleNoisy ∨ e = .toggleFiltered) :
    (step draw s e).amplitude = s.amplitude ∧
    (step draw s e).frequency = s.frequency ∧
    (step draw s e).phase = s.phase ∧
    (step draw s e).noise_mean = s.noise_mean ∧
    (step draw s e).noise_covariance = s.noise_covariance ∧
    (step draw s e).filter_window = s.filter_window ∧
    (step draw s e).t = s.t ∧
    (step draw s e).pure_signal = s.pure_signal ∧
    (step draw s e).noise = s.noise ∧
    (step draw s e).noisy_signal = s.noisy_signal ∧
    (step draw s e).filtered_signal = s.filtered_signal ∧
    (step draw s e).rngPos = s.rngPos ∧
    ((step draw s e).noisyVisible = s.noisyVisible ↔ e = .toggleFiltered) ∧
    ((step draw s e).filteredVisible = s.filteredVisible ↔ e = .toggleNoisy) := by
  rcases h with h | h <;> subst h <;>
    refine ⟨rfl, rfl, rfl, rfl, rfl, rfl, rfl, rfl, rfl, rfl, rfl, rfl, ?_, ?_⟩ <;>
    simp [step]

/-- Closed instance of `visibility_toggle_frame` on `wState` and the
noisy-visibility toggle. -/
theorem visibility_toggle_frame_witness :
    (step (fun _ => 0) wState .toggleNoisy).noisy_signal = wState.noisy_signal ∧
    (step (fun _ => 0) wState .toggleNoisy).filtered_signal = wState.filtered_signal ∧
    (step (fun _ => 0) wState .toggleNoisy).noise_covariance = wState.noise_covariance ∧
    ¬ ((step (fun _ => 0) wState .toggleNoisy).noisyVisible = wState.noisyVisible) := by
  have h := visibility_toggle_frame (fun _ => 0) wState .toggleNoisy (Or.inl rfl)
  refine ⟨h.2.2.2.2.2.2.2.2.2.1, h.2.2.2.2.2.2.2.2.2.2.1, h.2.2.2.2.1, ?_⟩
  intro hcontra
  exact Event.noConfusion (h.2.2.2.2.2.2.2.2.2.2.2.2.1.mp hcontra)

/-- C10: zero-padding boundary policy.  For a signal of length at least the
window, the filter output at index `i` is `1/window` times the sum of the
input values whose indices lie in the width-`window` band centered at `i`
(the band `[i + (window-1)/2 - (window-1), i + (window-1)/2]`, numpy's
`'same'` centering); indices outside `[0, length)` contribute `0` — the sum
ranges over existing indices only, which is exactly zero padding. -/
theorem movingAverage_zero_padding (a : List ℝ) (w : ℕ) (h1 : 1 ≤ w)
    (h2 : w ≤ a.length) (i : ℕ) (hi : i < a.length) :
    (applyFilter a (w : ℤ)).getD i 0 =
      ((w : ℝ))⁻¹ * ∑ m in Finset.range a.length,
        (if (i : ℤ) + (((w - 1) / 2 : ℕ) : ℤ) - ((w : ℤ) - 1) ≤ (m : ℤ) ∧
            (m : ℤ) ≤ (i : ℤ) + (((w - 1) / 2 : ℕ) : ℤ)
         then a.getD m 0 else 0) := by
  have htn : ((w : ℤ)).toNat = w := Int.toNat_natCast w
  rw [applyFilter, htn]
  have hk1 : 1 ≤ (uniformKernel w).length := by rw [uniformKernel_length]; exact h1
  have hkle : (uniformKernel w).length ≤ a.length := by
    rw [uniformKernel_length]; exact h2
  rw [convSame_getD a _ i hk1 hkle hi, uniformKernel_length,
    convFull_getD a _ _ (by rw [uniformKernel_length]; omega), Finset.mul_sum]
  apply Finset.sum_congr rfl
  intro m hm
  rw [getZ_uniformKernel]
  by_cases hc : (i : ℤ) + (((w - 1) / 2 : ℕ) : ℤ) - ((w : ℤ) - 1) ≤ (m : ℤ) ∧
      (m : ℤ) ≤ (i : ℤ) + (((w - 1) / 2 : ℕ) : ℤ)
  · rw [if_pos hc, if_pos (by push_cast at hc ⊢; omega), mul_comm]
  · rw [if_neg hc, if_neg (by push_cast at hc ⊢; omega), mul_zero, mul_zero]

/-- Closed instance of `movingAverage_zero_padding`: signal `[1, 2, 3]`,
window 2, index 0. -/
theorem movingAverage_zero_padding_witness :
    (applyFilter [1, 2, 3] (2 : ℤ)).getD 0 0 =
      ((2 : ℝ))⁻¹ * ∑ m in Finset.range 3,
        (if (0 : ℤ) + (((2 - 1) / 2 : ℕ) : ℤ) - ((2 : ℤ) - 1) ≤ (m : ℤ) ∧
            (m : ℤ) ≤ (0 : ℤ) + (((2 - 1) / 2 : ℕ) : ℤ)
         then ([1, 2, 3] : List ℝ).getD m 0 else 0) :=
  movingAverage_zero_padding [1, 2, 3] 2 (by decide) (by decide) 0 (by decide)
